import Mathlib

/-!
Verification of the segment timing-alignment and audio-reconstruction engine
of the video-translation repository (files `video_translation_pipeline.py`
and `video_processor.py`).

Shallow embedding conventions:
* Times and durations are modelled in integer milliseconds (`Nat`), matching
  the code's `int(float_seconds * 1000)` conversions and pydub's
  millisecond-based `AudioSegment` arithmetic.
* An assembled audio track is abstracted by the ordered list of pieces that
  the code appends to `combined` (`Item.gap d` for `AudioSegment.silent(d)`,
  `Item.clip d` for a synthesized clip of length `d`); the track's length is
  the sum of the piece lengths, and clip onsets are the prefix sums.
* The opaque external collaborators (MarianMT translation, TTS synthesis)
  are oracles: `tr : String → Option String` (translated text or failure) and
  `tts : String → Option Nat` (duration of the synthesized clip, `none` on
  synthesis failure), mirroring `_translate_text_ru_en` returning an empty
  string and `synthesize_with_voice` returning `None` on failure.
-/

/-- Whitespace as recognised by Python's `str.strip()` and the `\s` class of
the terminal-punctuation regex (restricted to the common ASCII whitespace). -/
def isWs (c : Char) : Bool :=
  c = ' ' || c = '\t' || c = '\n' || c = '\r'

/-- Python's `str.strip()`: drop leading and trailing whitespace. -/
def pyStrip (s : String) : String :=
  String.mk (((s.data.dropWhile isWs).reverse.dropWhile isWs).reverse)

/-- A Whisper utterance as consumed by the pipeline: global start/end
timestamps (milliseconds) and the transcribed text
(`{"start": ..., "end": ..., "text": ...}`). -/
structure Utt where
  startMs : Nat
  endMs : Nat
  text : String
deriving DecidableEq

/-- One piece appended to the accumulating `combined` track:
inserted silence or a synthesized clip, both measured in ms. -/
inductive Item where
  | gap (d : Nat)
  | clip (d : Nat)
deriving DecidableEq

/-- Length contributed by one appended piece. -/
def Item.len : Item → Nat
  | Item.gap d => d
  | Item.clip d => d

/-- Total length of the assembled track: `len(combined)` after the loop. -/
def itemsLen (items : List Item) : Nat :=
  (items.map Item.len).sum

/-- The relevant-segment filter of `_process_segment_with_correct_timing`
(lines 356-364): keep every utterance whose span intersects the window,
`seg_start < end_time and seg_end > start_time`. -/
def relevantSegments (segs : List Utt) (winStartMs winEndMs : Nat) : List Utt :=
  segs.filter (fun u => u.startMs < winEndMs && winStartMs < u.endMs)

/-- The per-utterance alignment loop of `_process_segment_with_correct_timing`
(lines 397-476).  State: the pieces appended so far are the returned list;
`cur` is `current_ms`.  Per iteration:
* skip when `end_ms <= start_ms` or the stripped text is empty;
* on translation failure or synthesis failure append silence of
  `end_ms - start_ms` and set `current_ms = end_ms`;
* if the synthesized duration `D <= ru`: place at `start_ms` (global!),
  inserting the uncapped gap `start_ms - current_ms` when the cursor is
  behind, and set `current_ms = start_ms + D`;
* otherwise (`D > ru`) both sub-branches of the code append the clip in full
  and advance `current_ms` by `D` (the computed `allowed_ms` only selects
  the log message).
`MAX_PAUSE_MS`, `CONTINUATION_PAUSE_MS` and the `prev_en_terminal` flag are
declared in this function but never consulted, so no gap capping occurs. -/
def ctLoop (tr : String → Option String) (tts : String → Option Nat) :
    List Utt → Nat → List Item
  | [], _ => []
  | u :: rest, cur =>
    if u.endMs ≤ u.startMs || pyStrip u.text = "" then
      ctLoop tr tts rest cur
    else
      match tr u.text with
      | none => Item.gap (u.endMs - u.startMs) :: ctLoop tr tts rest u.endMs
      | some en =>
        match tts en with
        | none => Item.gap (u.endMs - u.startMs) :: ctLoop tr tts rest u.endMs
        | some d =>
          let ru := u.endMs - u.startMs
          if d ≤ ru then
            (if cur < u.startMs then [Item.gap (u.startMs - cur)] else []) ++
              Item.clip d :: ctLoop tr tts rest (u.startMs + d)
          else
            Item.clip d :: ctLoop tr tts rest (cur + d)

/-- `_process_segment_with_correct_timing` (lines 333-515): filter the global
utterance list down to the window, fall back to a pure-silence window when
nothing is relevant, run the alignment loop from `current_ms = 0`, and fail
(`return False`) when the assembled track is empty. -/
def processSegmentWithCorrectTiming (tr : String → Option String)
    (tts : String → Option Nat) (allSegments : List Utt)
    (winStartMs winEndMs : Nat) : Option (List Item) :=
  let relevant := relevantSegments allSegments winStartMs winEndMs
  if relevant = [] then
    some [Item.gap (winEndMs - winStartMs)]
  else
    let items := ctLoop tr tts relevant 0
    if itemsLen items = 0 then none else some items

/-- `MAX_GAP_MS = 400` (extra pause an oversize clip may consume). -/
def MAX_GAP_MS : Nat := 400

/-- `CONTINUATION_PAUSE_MS = 120` (pause cap when the previous phrase did not
end in terminal punctuation). -/
def CONTINUATION_PAUSE_MS : Nat := 120

/-- `MAX_PAUSE_MS = 2000` (absolute pause cap). -/
def MAX_PAUSE_MS : Nat := 2000

/-- The gap-capping computation of `_process_segment_with_full_functionality`
(lines 568-577) and `translate_video_with_voice_preservation`
(lines 1234-1243): `gap = start_ms - current_ms`; if the previous phrase was
not terminal, `gap = min(gap, CONTINUATION_PAUSE_MS)`; then
`gap = min(gap, MAX_PAUSE_MS)`. -/
def cappedGap (rawGap : Nat) (prevTerminal : Bool) : Nat :=
  let g := if prevTerminal then rawGap else min rawGap CONTINUATION_PAUSE_MS
  min g MAX_PAUSE_MS

/-- The character class of the terminal-punctuation regex
`[\.\!\?…:]\s*$` applied to the translated text. -/
def isTerminalPunct (c : Char) : Bool :=
  c = '.' || c = '!' || c = '?' || c = '…' || c = ':'

/-- `re.search(r"[\.\!\?…:]\s*$", text_en)`: after trailing whitespace,
the text ends in one of `.?!…:`. -/
def endsTerminal (s : String) : Bool :=
  match s.data.reverse.dropWhile isWs with
  | [] => false
  | c :: _ => isTerminalPunct c

/-- The pause-expansion assembly inside `_add_pauses_between_words`
(lines 1597-1618).  `audioMs` is the clip length in milliseconds; `quiet` is
the ordered list of `(start, end)` boundaries of the detected quiet regions —
these are *sample* indices produced by the energy scan, which the code then
uses directly as pydub *millisecond* slice positions (`audio[last_end:start]`)
and as the base of each expanded pause; the detection itself depends on the
opaque signal content, so the region list is a parameter here.  A pydub slice
`audio[a:b]` contributes `min b L - min a L` milliseconds.  Each pause
contributes `min (end - start + avgPause) 200` (the 200 ms per-region cap),
and the tail `audio[last_end:]` is appended when `last_end < len(audio)`. -/
def quietAssembleLen (audioMs : Nat) (quiet : List (Nat × Nat)) (avgPause : Nat) : Nat :=
  let f := fun (acc : Nat × Nat) (r : Nat × Nat) =>
    let sliced := if acc.2 < r.1 then acc.1 + (min r.1 audioMs - min acc.2 audioMs) else acc.1
    (sliced + min (r.2 - r.1 + avgPause) 200, r.2)
  let out := quiet.foldl f (0, 0)
  if out.2 < audioMs then out.1 + (audioMs - min out.2 audioMs) else out.1

/-- `_add_pauses_between_words` (lines 1534-1638), tracked at the level of
output length: `additional = target - current`; if `additional < 50` the clip
is exported unchanged; with quiet regions present, pauses are expanded with
`avg = max(30, min(additional // n, 150))` and the result is padded with a
final pause to exactly the target if still short; with no quiet region, a
single trailing pad of `target - current` is appended. -/
def addPausesBetweenWords (curMs : Nat) (quiet : List (Nat × Nat)) (target : Nat) : Nat :=
  let additional := target - curMs
  if additional < 50 then curMs
  else if quiet.isEmpty then curMs + (target - curMs)
  else
    let avg := max 30 (min (additional / quiet.length) 150)
    let assembled := quietAssembleLen curMs quiet avg
    if assembled < target then target else assembled

/-- `_stretch_wav_to_duration` (lines 1503-1532): fail on an empty clip;
pass through unchanged within the 40 ms tolerance band; grow a short clip via
`_add_pauses_between_words`; never shrink a long clip (exported unchanged).
Returns the length of the written output, `none` on failure. -/
def stretchWavToDuration (curMs : Nat) (quiet : List (Nat × Nat)) (targetMs : Nat) :
    Option Nat :=
  if curMs = 0 then none
  else if max curMs targetMs - min curMs targetMs ≤ 40 then some curMs
  else if curMs < targetMs then some (addPausesBetweenWords curMs quiet targetMs)
  else some curMs

/-- The per-utterance alignment loop of `translate_video_with_voice_preservation`
(lines 1227-1306).  Differences from `ctLoop`: the pre-utterance gap is
inserted in every branch and capped by `cappedGap` using the
`prev_en_terminal` flag; translation or synthesis failure merely skips the
utterance (the already-inserted gap stays); the oversize branch uses
`allowed = ru + available_gap` (uncapped by `MAX_GAP_MS` here) and falls back
to `_stretch_wav_to_duration`, advancing the cursor by `allowed` on a
successful fit and to `start + D` when fitting fails.  `qof` abstracts the
quiet-region analysis of the synthesized clip for the fitter. -/
def vpLoop (tr : String → Option String) (tts : String → Option Nat)
    (qof : String → List (Nat × Nat)) :
    List Utt → Nat → Bool → List Item
  | [], _, _ => []
  | u :: rest, cur, prevTerm =>
    if u.endMs ≤ u.startMs || pyStrip u.text = "" then
      vpLoop tr tts qof rest cur prevTerm
    else
      let g := if cur < u.startMs then cappedGap (u.startMs - cur) prevTerm else 0
      let gapItems : List Item := if cur < u.startMs then [Item.gap g] else []
      let cur1 := cur + g
      match tr u.text with
      | none => gapItems ++ vpLoop tr tts qof rest cur1 prevTerm
      | some en =>
        match tts en with
        | none => gapItems ++ vpLoop tr tts qof rest cur1 prevTerm
        | some d =>
          let ru := u.endMs - u.startMs
          let pt := endsTerminal en
          if d ≤ ru then
            gapItems ++ Item.clip d :: vpLoop tr tts qof rest (cur1 + d) pt
          else
            let avail := match rest.head? with
              | some v => v.startMs - u.endMs
              | none => 0
            let allowed := ru + avail
            if d ≤ allowed then
              gapItems ++ Item.clip d :: vpLoop tr tts qof rest (cur1 + d) pt
            else
              match stretchWavToDuration d (qof en) allowed with
              | some fitLen =>
                  gapItems ++ Item.clip fitLen :: vpLoop tr tts qof rest (cur1 + allowed) pt
              | none =>
                  gapItems ++ Item.clip d :: vpLoop tr tts qof rest (u.startMs + d) pt

/-- The final duration-lock step of `_apply_prosody_to_audio`
(`video_processor.py` lines 246-255): only when the caller-supplied target is
truthy and positive (`if original_ms and original_ms > 0`), a shorter track is
trailing-padded with silence to exactly the target and a track longer than
`target + 50` is truncated to exactly the target; otherwise the track passes
through. -/
def applyProsodyDurationLock (curMs targetMs : Nat) : Nat :=
  if 0 < targetMs then
    if curMs < targetMs then curMs + (targetMs - curMs)
    else if targetMs + 50 < curMs then targetMs
    else curMs
  else curMs

/-- `_extract_audio_segment` (lines 277-331), with the source track as a
sample list at millisecond resolution (`none` = file missing).  Failure
(`return False`, nothing written) when the source is missing or empty, when
`start_ms >= len(audio)`, or when the clipped slice is empty; otherwise the
end is clamped to the track length and the slice `audio[start_ms:end_ms]` is
written. -/
def extractAudioSegment (audio? : Option (List Int)) (startMs endMs : Nat) :
    Option (List Int) :=
  match audio? with
  | none => none
  | some audio =>
    if audio.length = 0 then none
    else if audio.length ≤ startMs then none
    else
      let endClamped := min endMs audio.length
      let segment := (audio.take endClamped).drop startMs
      if segment.length = 0 then none else some segment

/-- The window schedule of `translate_long_video_with_optimization`
(lines 142-161): `estimated_segments = total // segment_duration + 1`
windows are attempted, breaking once `start_time >= total_duration`. -/
def windowIndices (totalMs segMs : Nat) : List Nat :=
  (List.range (totalMs / segMs + 1)).filter (fun i => i * segMs < totalMs)

/-- The body of the Step-6 window loop (lines 156-201), iterating over the
remaining window indices: for each window `[i*segMs, min((i+1)*segMs, total))`,
extract the window audio (`extOk` abstracts `_extract_audio_segment`
succeeding) and process it; a window whose extraction or processing fails is
skipped (`continue`) and appends nothing to `segment_files`. -/
def windowLoopGo (tr : String → Option String) (tts : String → Option Nat)
    (extOk : Nat → Bool) (segs : List Utt) (totalMs segMs : Nat) :
    List Nat → List (Nat × List Item)
  | [] => []
  | i :: l =>
    if extOk i then
      match processSegmentWithCorrectTiming tr tts segs (i * segMs)
          (min ((i + 1) * segMs) totalMs) with
      | some items =>
        (i, items) :: windowLoopGo tr tts extOk segs totalMs segMs l
      | none => windowLoopGo tr tts extOk segs totalMs segMs l
    else windowLoopGo tr tts extOk segs totalMs segMs l

/-- The Step-6 window loop over the scheduled windows: the successful
`(index, items)` pairs in order (`segment_files`). -/
def windowLoop (tr : String → Option String) (tts : String → Option Nat)
    (extOk : Nat → Bool) (segs : List Utt) (totalMs segMs : Nat) :
    List (Nat × List Item) :=
  windowLoopGo tr tts extOk segs totalMs segMs (windowIndices totalMs segMs)

/-- `_combine_segments_simple` (lines 951-987): concatenate the produced
segment files and fail when the result is empty. -/
def combineSegmentsSimple (fileLens : List Nat) : Option Nat :=
  if fileLens.sum = 0 then none else some fileLens.sum

/-- Steps 6-7 composed: length of the concatenated long-video output. -/
def longVideoCombinedLen (tr : String → Option String) (tts : String → Option Nat)
    (extOk : Nat → Bool) (segs : List Utt) (totalMs segMs : Nat) : Option Nat :=
  combineSegmentsSimple
    ((windowLoop tr tts extOk segs totalMs segMs).map (fun p => itemsLen p.2))

/-- Observable phases of `translate_long_video_with_optimization`. -/
inductive PipeEv where
  | extractWindow (idx winStartMs winEndMs : Nat)
  | processWindow (idx : Nat) (items : List Item)
  | combineAll
  | applyProsody
  | bedMix (gainDb : Int) (bedLen topLen : Nat)
  | syncVideo
deriving DecidableEq

/-- Is this event the bed mix (Step 9)? -/
def PipeEv.isMix : PipeEv → Bool
  | PipeEv.bedMix _ _ _ => true
  | _ => false

/-- Is this event part of per-window processing (Step 6)? -/
def PipeEv.isWindowPhase : PipeEv → Bool
  | PipeEv.extractWindow _ _ _ => true
  | PipeEv.processWindow _ _ => true
  | _ => false

/-- The length-matching of Step 9 (lines 237-241): pad the original track
with silence up to the TTS track's length, or truncate it down to it. -/
def lengthMatchBed (origLen target : Nat) : Nat :=
  if origLen < target then origLen + (target - origLen)
  else if target < origLen then target
  else origLen

/-- The ordered per-window events of the Step-6 loop over the remaining
window indices: every scheduled window is extracted (or at least attempted),
and only a successfully processed window emits a `processWindow` event
carrying its output. -/
def windowPhaseEventsGo (tr : String → Option String) (tts : String → Option Nat)
    (extOk : Nat → Bool) (segs : List Utt) (totalMs segMs : Nat) :
    List Nat → List PipeEv
  | [] => []
  | i :: l =>
    let ws := i * segMs
    let we := min ((i + 1) * segMs) totalMs
    (if extOk i then
      match processSegmentWithCorrectTiming tr tts segs ws we with
      | some items =>
        [PipeEv.extractWindow i ws we, PipeEv.processWindow i items]
      | none => [PipeEv.extractWindow i ws we]
    else [PipeEv.extractWindow i ws we]) ++
      windowPhaseEventsGo tr tts extOk segs totalMs segMs l

/-- The per-window events of the Step-6 loop over the scheduled windows. -/
def windowPhaseEvents (tr : String → Option String) (tts : String → Option Nat)
    (extOk : Nat → Bool) (segs : List Utt) (totalMs segMs : Nat) : List PipeEv :=
  windowPhaseEventsGo tr tts extOk segs totalMs segMs (windowIndices totalMs segMs)

/-- The event trace of a `translate_long_video_with_optimization` run
(Steps 6-10): the window loop, then `_combine_segments_simple` (Step 7),
then Step 8's prosody pass when prosody info is available (`prosodyOut`
abstracts its effect on the track length), then exactly one bed mix with the
source constant `bed_gain_db = -24` on the length-matched original (Step 9),
then the remux (Step 10).  The run aborts with `none` when no window
succeeded (`if not segment_files: return False`). -/
def longVideoRun (tr : String → Option String) (tts : String → Option Nat)
    (extOk : Nat → Bool) (hasProsody : Bool) (prosodyOut : Nat → Nat)
    (segs : List Utt) (totalMs segMs origLenMs : Nat) : Option (List PipeEv) :=
  let files := windowLoop tr tts extOk segs totalMs segMs
  if files = [] then none
  else
    let combined := (files.map (fun p => itemsLen p.2)).sum
    let finalLen := if hasProsody then prosodyOut combined else combined
    some (windowPhaseEvents tr tts extOk segs totalMs segMs ++
      [PipeEv.combineAll] ++
      (if hasProsody then [PipeEv.applyProsody] else []) ++
      [PipeEv.bedMix (-24) (lengthMatchBed origLenMs finalLen) finalLen,
       PipeEv.syncVideo])

/-- Clip placements of an assembled track: the `(onset, duration)` of each
appended clip, with onsets measured from `pos` (the track length already
accumulated before these items). -/
def placements : List Item → Nat → List (Nat × Nat)
  | [], _ => []
  | Item.gap d :: rest, pos => placements rest (pos + d)
  | Item.clip d :: rest, pos => (pos, d) :: placements rest (pos + d)

/-! ## Helper lemmas -/

theorem itemsLen_cons (x : Item) (l : List Item) :
    itemsLen (x :: l) = x.len + itemsLen l := by
  simp [itemsLen]

theorem itemsLen_nil : itemsLen [] = 0 := rfl

theorem placements_onset_ge (items : List Item) (pos : Nat) :
    ∀ p ∈ placements items pos, pos ≤ p.1 := by
  induction items generalizing pos with
  | nil => intro p hp; simp [placements] at hp
  | cons x rest ih =>
    intro p hp
    cases x with
    | gap d =>
      have := ih (pos + d) p (by simpa [placements] using hp)
      omega
    | clip d =>
      simp only [placements, List.mem_cons] at hp
      rcases hp with h | h
      · simp [h]
      · have := ih (pos + d) p h
        omega

theorem placements_chain_disjoint (items : List Item) (pos : Nat) :
    List.Chain' (fun a b : Nat × Nat => a.1 + a.2 ≤ b.1) (placements items pos) := by
  induction items generalizing pos with
  | nil => simp [placements]
  | cons x rest ih =>
    cases x with
    | gap d => simpa [placements] using ih (pos + d)
    | clip d =>
      simp only [placements]
      rw [List.chain'_cons']
      refine ⟨?_, ih (pos + d)⟩
      intro b hb
      have hmem : b ∈ placements rest (pos + d) := by
        cases hhead : (placements rest (pos + d)).head? with
        | none => simp [hhead] at hb
        | some c =>
          simp only [hhead, Option.mem_def, Option.some.injEq] at hb
          subst hb
          exact List.mem_of_mem_head? hhead
      have := placements_onset_ge rest (pos + d) b hmem
      omega

/-! ## Claim theorems -/

/-- Claim C8 (confirmed): for every window input and every utterance list, the
clip placements produced by either aligner loop (the long-video
`_process_segment_with_correct_timing` loop and the short-video
`translate_video_with_voice_preservation` loop) have non-decreasing onsets and
no two placed clips overlap on the output timeline: each clip starts at or
after the end of the previous one, because the assembled track only grows by
appending silence or clips. -/
theorem aligner_placements_monotone_disjoint
    (tr : String → Option String) (tts : String → Option Nat)
    (qof : String → List (Nat × Nat)) (us : List Utt) (cur : Nat)
    (prevTerm : Bool) :
    (List.Chain' (fun a b : Nat × Nat => a.1 + a.2 ≤ b.1)
        (placements (ctLoop tr tts us cur) 0) ∧
      List.Chain' (fun a b : Nat × Nat => a.1 ≤ b.1)
        (placements (ctLoop tr tts us cur) 0)) ∧
    (List.Chain' (fun a b : Nat × Nat => a.1 + a.2 ≤ b.1)
        (placements (vpLoop tr tts qof us cur prevTerm) 0) ∧
      List.Chain' (fun a b : Nat × Nat => a.1 ≤ b.1)
        (placements (vpLoop tr tts qof us cur prevTerm) 0)) := by
  refine ⟨⟨placements_chain_disjoint _ 0, ?_⟩, placements_chain_disjoint _ 0, ?_⟩ <;>
    exact (placements_chain_disjoint _ 0).imp (fun h => by omega)

/-- Claim C1 counterexample: the window filter of
`_process_segment_with_correct_timing` is an overlap test, so the utterance
spanning 59.0s-61.0s is selected both by the window [0s, 60s) and by the
window [60s, 120s), although only the first contains its start: it is
processed twice, contradicting selection in exactly one window. -/
theorem boundary_utterance_selected_twice :
    relevantSegments [⟨59000, 61000, "a"⟩] 0 60000 = [⟨59000, 61000, "a"⟩] ∧
    relevantSegments [⟨59000, 61000, "a"⟩] 60000 120000 = [⟨59000, 61000, "a"⟩] ∧
    ¬ (60000 ≤ 59000) := by
  decide

/-- Claim C1 (amended): an utterance is selected for a window exactly when its
span overlaps the window (`start < window_end` and `window_start < end`); in
particular it is always selected in the window containing its start (never
dropped), but an utterance crossing a window boundary is selected in every
window it overlaps, so it can be processed more than once. -/
theorem utterance_selected_in_every_overlapping_window
    (u : Utt) (segs : List Utt) (ws we : Nat)
    (h1 : u ∈ segs) (h2 : ws ≤ u.startMs) (h3 : u.startMs < we)
    (h4 : u.startMs < u.endMs) :
    u ∈ relevantSegments segs ws we ∧
    ∀ ws2 we2, (u ∈ relevantSegments segs ws2 we2 ↔
      (u.startMs < we2 ∧ ws2 < u.endMs)) := by
  constructor
  · simp only [relevantSegments, List.mem_filter, Bool.and_eq_true, decide_eq_true_eq]
    exact ⟨h1, h3, by omega⟩
  · intro ws2 we2
    simp only [relevantSegments, List.mem_filter, Bool.and_eq_true, decide_eq_true_eq]
    exact ⟨fun h => h.2, fun h => ⟨h1, h⟩⟩

/-- Claim C1 witness: the boundary-crossing utterance is selected in the
window [0s, 60s) containing its start, and the characterization shows it is
also selected in [60s, 120s). -/
theorem utterance_selected_in_every_overlapping_window_w :
    (⟨59000, 61000, "a"⟩ : Utt) ∈ relevantSegments [⟨59000, 61000, "a"⟩] 0 60000 ∧
    ∀ ws2 we2, ((⟨59000, 61000, "a"⟩ : Utt) ∈
        relevantSegments [⟨59000, 61000, "a"⟩] ws2 we2 ↔
      (59000 < we2 ∧ ws2 < 61000)) :=
  utterance_selected_in_every_overlapping_window ⟨59000, 61000, "a"⟩
    [⟨59000, 61000, "a"⟩] 0 60000 (by decide) (by decide) (by decide) (by decide)

/-- Claim C2 (code bug): in `_process_segment_with_correct_timing` the
constants `CONTINUATION_PAUSE_MS` and `MAX_PAUSE_MS` are declared (with the
comment that 2000 ms is the maximum pause in any case) and the
`prev_en_terminal` flag is computed, but none of them is applied to the
inserted gap: for the utterance starting at 5000 ms with the cursor at 0 the
code inserts the full 5000 ms of silence where the claimed formula yields
`min(5000 - 0, 2000) = 2000`.  The sibling functions
(`_process_segment_with_full_functionality` and
`translate_video_with_voice_preservation`) do implement exactly the claimed
formula, via `cappedGap`. -/
theorem correct_timing_inserts_uncapped_gap :
    processSegmentWithCorrectTiming (fun _ => some "It is done.")
        (fun _ => some 1000) [⟨5000, 7000, "a"⟩] 0 60000 =
      some [Item.gap 5000, Item.clip 1000] ∧
    min (5000 - 0) MAX_PAUSE_MS = 2000 ∧ (2000 : Nat) < 5000 ∧
    (∀ rawGap : Nat, ∀ prevTerminal : Bool,
      cappedGap rawGap prevTerminal =
        if prevTerminal then min rawGap MAX_PAUSE_MS
        else min rawGap CONTINUATION_PAUSE_MS) := by
  refine ⟨by decide, by decide, by decide, ?_⟩
  intro rawGap prevTerminal
  cases prevTerminal with
  | false =>
    have h : min rawGap CONTINUATION_PAUSE_MS ≤ MAX_PAUSE_MS := by
      have := Nat.min_le_right rawGap CONTINUATION_PAUSE_MS
      simp only [CONTINUATION_PAUSE_MS, MAX_PAUSE_MS] at *
      omega
    simp [cappedGap, Nat.min_eq_left h]
  | true => simp [cappedGap]

/-- Claim C3 (confirmed): in the long-video window processor the output
cursor starts at 0 for every window while utterance timestamps stay global,
so when the first relevant utterance of window `[ws, we)` has synthesized
duration at most its source duration and global start `s > 0`, the window's
output begins with `s` milliseconds of inserted silence — the full global
offset, not the offset within the window; with a single such utterance the
output length is `s + D`, which exceeds the window-local placement length
`(s - ws) + D` by exactly the window's global start `ws`. -/
theorem window_output_carries_global_offset
    (tr : String → Option String) (tts : String → Option Nat)
    (segs : List Utt) (ws we : Nat) (u : Utt) (rest : List Utt)
    (en : String) (d : Nat)
    (hrel : relevantSegments segs ws we = u :: rest)
    (hspan : u.startMs < u.endMs) (htext : pyStrip u.text ≠ "")
    (htr : tr u.text = some en) (htts : tts en = some d)
    (hfit : d ≤ u.endMs - u.startMs) (hpos : 0 < u.startMs) :
    ∃ items, processSegmentWithCorrectTiming tr tts segs ws we = some items ∧
      items.head? = some (Item.gap u.startMs) ∧
      (rest = [] → itemsLen items = u.startMs + d ∧
        (ws ≤ u.startMs → itemsLen items = ws + ((u.startMs - ws) + d))) := by
  have hguard : (decide (u.endMs ≤ u.startMs) || decide (pyStrip u.text = "")) = false := by
    simp [htext]; omega
  have hstep : ctLoop tr tts (u :: rest) 0 =
      Item.gap u.startMs :: Item.clip d :: ctLoop tr tts rest (u.startMs + d) := by
    simp only [ctLoop, hguard, Bool.false_eq_true, if_false, htr, htts]
    rw [if_pos hfit, if_pos hpos]
    simp
  have hlen : itemsLen (ctLoop tr tts (u :: rest) 0) ≠ 0 := by
    rw [hstep, itemsLen_cons]
    simp only [Item.len]
    omega
  refine ⟨ctLoop tr tts (u :: rest) 0, ?_, ?_, ?_⟩
  · simp only [processSegmentWithCorrectTiming, hrel]
    rw [if_neg (by simp), if_neg hlen]
  · rw [hstep]; rfl
  · intro hnil
    subst hnil
    rw [hstep]
    constructor
    · simp [itemsLen, Item.len, ctLoop]
    · intro hws
      simp [itemsLen, Item.len, ctLoop]
      omega

/-- Claim C3 witness: the window [60s, 120s) whose first relevant utterance
starts at global time 61s with a 1000 ms synthesized clip (source span
2000 ms) produces output that begins with 61000 ms of silence and is
62000 ms long, 60000 ms more than window-local placement would give. -/
theorem window_output_carries_global_offset_w :
    ∃ items, processSegmentWithCorrectTiming (fun _ => some "e.")
        (fun _ => some 1000) [⟨61000, 63000, "a"⟩] 60000 120000 = some items ∧
      items.head? = some (Item.gap 61000) ∧
      ([] = ([] : List Utt) → itemsLen items = 61000 + 1000 ∧
        (60000 ≤ 61000 → itemsLen items = 60000 + ((61000 - 60000) + 1000))) :=
  window_output_carries_global_offset (fun _ => some "e.") (fun _ => some 1000)
    [⟨61000, 63000, "a"⟩] 60000 120000 ⟨61000, 63000, "a"⟩ [] "e." 1000
    (by decide) (by decide) (by decide) rfl rfl (by decide) (by decide)

/-- Claim C9 counterexample: with the cursor at 0 and the single utterance
spanning 5000-7000 ms, a synthesis failure yields a window output of 2000 ms,
while a successful run with an exact-fit 2000 ms clip yields 7000 ms (the
failure branch appends only the `ru` silence and skips the pre-utterance
gap), so the window's output duration is not left unchanged. -/
theorem synth_failure_output_duration_differs :
    (processSegmentWithCorrectTiming (fun _ => some "e") (fun _ => none)
        [⟨5000, 7000, "a"⟩] 0 60000).map itemsLen = some 2000 ∧
    (processSegmentWithCorrectTiming (fun _ => some "e") (fun _ => some 2000)
        [⟨5000, 7000, "a"⟩] 0 60000).map itemsLen = some 7000 ∧
    (2000 : Nat) ≠ 7000 := by
  decide

/-- Claim C9 (amended): when synthesis fails for an utterance, the long-video
core appends silence of exactly `ru = end - start` in its place and sets the
cursor to `end`; this leaves the window's output duration unchanged relative
to a run in which synthesis succeeded with an exact-fit clip of `ru`
milliseconds, provided the output cursor had already reached the utterance's
start (when the cursor lags behind `start`, the failure path skips the
pre-utterance gap and the output is shorter by that gap). -/
theorem synth_failure_inserts_source_span_silence
    (tr : String → Option String) (ttsF ttsS : String → Option Nat)
    (u : Utt) (rest : List Utt) (cur : Nat) (en : String)
    (hspan : u.startMs < u.endMs) (htext : pyStrip u.text ≠ "")
    (htr : tr u.text = some en) (hf : ttsF en = none)
    (hs : ttsS en = some (u.endMs - u.startMs)) (hcur : u.startMs ≤ cur)
    (htail : ctLoop tr ttsF rest u.endMs = ctLoop tr ttsS rest u.endMs) :
    ctLoop tr ttsF (u :: rest) cur =
      Item.gap (u.endMs - u.startMs) :: ctLoop tr ttsF rest u.endMs ∧
    itemsLen (ctLoop tr ttsF (u :: rest) cur) =
      itemsLen (ctLoop tr ttsS (u :: rest) cur) := by
  have hguard : (decide (u.endMs ≤ u.startMs) || decide (pyStrip u.text = "")) = false := by
    simp [htext]; omega
  have hF : ctLoop tr ttsF (u :: rest) cur =
      Item.gap (u.endMs - u.startMs) :: ctLoop tr ttsF rest u.endMs := by
    simp only [ctLoop, hguard, Bool.false_eq_true, if_false, htr, hf]
  have hS : ctLoop tr ttsS (u :: rest) cur =
      Item.clip (u.endMs - u.startMs) :: ctLoop tr ttsS rest u.endMs := by
    simp only [ctLoop, hguard, Bool.false_eq_true, if_false, htr, hs]
    rw [if_pos (Nat.le_refl _), if_neg (by omega)]
    have : u.startMs + (u.endMs - u.startMs) = u.endMs := by omega
    simp [this]
  refine ⟨hF, ?_⟩
  rw [hF, hS, itemsLen_cons, itemsLen_cons, htail]
  rfl

/-- Claim C9 witness: for the utterance spanning 5000-7000 ms with the cursor
already at 5000 ms, the failure path inserts exactly 2000 ms of silence and
the window's output length equals that of the exact-fit success run. -/
theorem synth_failure_inserts_source_span_silence_w :
    ctLoop (fun _ => some "e") (fun _ => none) [⟨5000, 7000, "a"⟩] 5000 =
      Item.gap 2000 :: ctLoop (fun _ => some "e") (fun _ => none) [] 7000 ∧
    itemsLen (ctLoop (fun _ => some "e") (fun _ => none) [⟨5000, 7000, "a"⟩] 5000) =
      itemsLen (ctLoop (fun _ => some "e") (fun _ => some 2000) [⟨5000, 7000, "a"⟩] 5000) :=
  synth_failure_inserts_source_span_silence (fun _ => some "e") (fun _ => none)
    (fun _ => some 2000) ⟨5000, 7000, "a"⟩ [] 5000 "e"
    (by decide) (by decide) rfl rfl rfl (by decide) rfl

/-- Claim C4 counterexample: the duration lock of `_apply_prosody_to_audio`
is guarded by `if original_ms and original_ms > 0`, so for the target 0 a
100 ms track passes through unchanged instead of being forced to within
50 ms of the target. -/
theorem duration_lock_skipped_for_zero_target :
    applyProsodyDurationLock 100 0 = 100 ∧ ¬ ((100 : Nat) ≤ 0 + 50) := by
  decide

/-- Claim C4 (amended): for every positive target the final length-forcing
step yields an output within `target + 50 ms`: a shorter track is
trailing-padded to exactly the target and a track longer than `target + 50`
is truncated to exactly the target; a zero (falsy) target skips the step and
leaves the track unchanged. -/
theorem duration_lock_within_tolerance_for_positive_target
    (cur t : Nat) (ht : 0 < t) :
    t ≤ applyProsodyDurationLock cur t ∧
    applyProsodyDurationLock cur t ≤ t + 50 ∧
    (cur < t → applyProsodyDurationLock cur t = t) ∧
    (t + 50 < cur → applyProsodyDurationLock cur t = t) ∧
    applyProsodyDurationLock cur 0 = cur := by
  simp only [applyProsodyDurationLock]
  split_ifs <;> omega

/-- Claim C4 witness: at current length 30 ms and target 50 ms the lock pads
to exactly 50 ms; with target 0 the 30 ms track is unchanged. -/
theorem duration_lock_within_tolerance_for_positive_target_w :
    (50 : Nat) ≤ applyProsodyDurationLock 30 50 ∧
    applyProsodyDurationLock 30 50 ≤ 50 + 50 ∧
    (30 < 50 → applyProsodyDurationLock 30 50 = 50) ∧
    (50 + 50 < 30 → applyProsodyDurationLock 30 50 = 50) ∧
    applyProsodyDurationLock 30 0 = 30 :=
  duration_lock_within_tolerance_for_positive_target 30 50 (by decide)

/-- Claim C5 counterexample: for a 1000 ms clip and target 1045 ms the
difference (45 ms) exceeds the 40 ms tolerance band, yet
`_add_pauses_between_words` returns the clip unchanged because the deficit is
below its own 50 ms threshold — the output is neither within 40 ms of the
target nor exactly the target, even though a quiet region exists. -/
theorem duration_fitter_tolerance_gap :
    stretchWavToDuration 1000 [(100, 200)] 1045 = some 1000 ∧
    40 < 1045 - 1000 ∧ (1000 : Nat) ≠ 1045 := by
  decide

/-- Claim C5 (amended): within the 40 ms band the fitter passes the clip
through unchanged; for `target < current` the clip is returned unchanged
(the fitter never shrinks); for `target >= current` with a deficit below
50 ms the clip is also returned unchanged (so the output can be up to 49 ms
short of the target); for a deficit of at least 50 ms a clip with no interior
quiet region gets a single trailing pad to exactly the target, and a clip
with quiet regions is expanded to at least the target (the final pad tops it
up exactly when the pause-expanded audio is still short). -/
theorem duration_fitter_cases (cur t : Nat) (q : List (Nat × Nat)) (hc : 0 < cur) :
    (max cur t - min cur t ≤ 40 → stretchWavToDuration cur q t = some cur) ∧
    (t < cur → stretchWavToDuration cur q t = some cur) ∧
    (cur < t → t - cur < 50 → stretchWavToDuration cur q t = some cur) ∧
    (cur < t → 50 ≤ t - cur → stretchWavToDuration cur [] t = some t) ∧
    (cur < t → 50 ≤ t - cur → q ≠ [] →
      ∃ m, stretchWavToDuration cur q t = some m ∧ t ≤ m) := by
  refine ⟨?_, ?_, ?_, ?_, ?_⟩
  · intro h
    simp only [stretchWavToDuration]
    rw [if_neg (by omega), if_pos h]
  · intro h
    simp only [stretchWavToDuration]
    rw [if_neg (by omega)]
    split
    · rfl
    · rw [if_neg (by omega)]
  · intro h1 h2
    simp only [stretchWavToDuration]
    rw [if_neg (by omega)]
    by_cases htol : max cur t - min cur t ≤ 40
    · rw [if_pos htol]
    · rw [if_neg htol, if_pos h1]
      simp only [addPausesBetweenWords]
      rw [if_pos (by omega)]
  · intro h1 h2
    simp only [stretchWavToDuration]
    rw [if_neg (by omega), if_neg (by omega), if_pos h1]
    have hfit : addPausesBetweenWords cur [] t = t := by
      simp only [addPausesBetweenWords]
      split_ifs with ha hb <;> first | omega | exact absurd rfl hb
    rw [hfit]
  · intro h1 h2 hq
    simp only [stretchWavToDuration]
    rw [if_neg (by omega), if_neg (by omega), if_pos h1]
    simp only [addPausesBetweenWords]
    rw [if_neg (by omega)]
    have hqe : q.isEmpty = false := by
      cases q with
      | nil => exact absurd rfl hq
      | cons a l => rfl
    rw [if_neg (by simp [hqe])]
    by_cases hlt :
        quietAssembleLen cur q (max 30 (min ((t - cur) / q.length) 150)) < t
    · exact ⟨t, by rw [if_pos hlt], Nat.le_refl t⟩
    · refine ⟨quietAssembleLen cur q (max 30 (min ((t - cur) / q.length) 150)),
        by rw [if_neg hlt], by omega⟩

/-- Claim C5 witness: a 1000 ms clip fitted to 1100 ms with one quiet region
exercises every proved case at a concrete input. -/
theorem duration_fitter_cases_w :
    (max 1000 1100 - min 1000 1100 ≤ 40 →
      stretchWavToDuration 1000 [(0, 10)] 1100 = some 1000) ∧
    (1100 < 1000 → stretchWavToDuration 1000 [(0, 10)] 1100 = some 1000) ∧
    (1000 < 1100 → 1100 - 1000 < 50 →
      stretchWavToDuration 1000 [(0, 10)] 1100 = some 1000) ∧
    (1000 < 1100 → 50 ≤ 1100 - 1000 →
      stretchWavToDuration 1000 [] 1100 = some 1100) ∧
    (1000 < 1100 → 50 ≤ 1100 - 1000 → ([(0, 10)] : List (Nat × Nat)) ≠ [] →
      ∃ m, stretchWavToDuration 1000 [(0, 10)] 1100 = some m ∧ 1100 ≤ m) :=
  duration_fitter_cases 1000 1100 [(0, 10)] (by decide)

theorem windowLoopGo_eq_filterMap (tr : String → Option String)
    (tts : String → Option Nat) (extOk : Nat → Bool) (segs : List Utt)
    (totalMs segMs : Nat) (l : List Nat) :
    windowLoopGo tr tts extOk segs totalMs segMs l =
      l.filterMap (fun i =>
        if extOk i then
          (processSegmentWithCorrectTiming tr tts segs (i * segMs)
            (min ((i + 1) * segMs) totalMs)).map (fun items => (i, items))
        else none) := by
  induction l with
  | nil => rfl
  | cons x xs ih =>
    simp only [windowLoopGo, List.filterMap_cons]
    cases hext : extOk x with
    | false => simp [hext, ih]
    | true =>
      cases hpsc : processSegmentWithCorrectTiming tr tts segs (x * segMs)
          (min ((x + 1) * segMs) totalMs) with
      | none => simp [hext, hpsc, ih]
      | some items => simp [hext, hpsc, ih]

/-- Claim C6 counterexample: two scheduled windows of 60 s over a 120 s
recording; extraction fails for window 0 and window 1 succeeds with a
61000 ms output.  The concatenated output is exactly window 1's audio
(window 0 absent from the produced files): the failed window contributes no
silence, so the output does not cover its 60000 ms span. -/
theorem failed_window_span_missing :
    longVideoCombinedLen (fun _ => some "e") (fun _ => some 1000)
        (fun i => decide (0 < i)) [⟨500, 1500, "a"⟩, ⟨60000, 61000, "b"⟩]
        120000 60000 = some 61000 ∧
    (windowLoop (fun _ => some "e") (fun _ => some 1000) (fun i => decide (0 < i))
        [⟨500, 1500, "a"⟩, ⟨60000, 61000, "b"⟩] 120000 60000).map Prod.fst = [1] ∧
    (61000 : Nat) ≠ 60000 + 61000 := by
  decide

/-- Claim C6 (amended): on a window failure the run does continue with the
remaining windows, but a window whose extraction or processing fails is
skipped and contributes nothing to the concatenated output (its span is
dropped and the concatenation shortens accordingly); only a successfully
processed window with no relevant utterances contributes silence equal to its
span, and a run in which every window fails aborts with no output. -/
theorem window_failures_drop_span (tr : String → Option String)
    (tts : String → Option Nat) (extOk : Nat → Bool) (segs : List Utt)
    (totalMs segMs : Nat) :
    windowLoop tr tts extOk segs totalMs segMs =
      (windowIndices totalMs segMs).filterMap (fun i =>
        if extOk i then
          (processSegmentWithCorrectTiming tr tts segs (i * segMs)
            (min ((i + 1) * segMs) totalMs)).map (fun items => (i, items))
        else none) ∧
    (∀ ws we, relevantSegments segs ws we = [] →
      processSegmentWithCorrectTiming tr tts segs ws we =
        some [Item.gap (we - ws)]) ∧
    combineSegmentsSimple [] = none ∧
    (∀ i, extOk i = false →
      i ∉ (windowLoop tr tts extOk segs totalMs segMs).map Prod.fst) := by
  have hchar : windowLoop tr tts extOk segs totalMs segMs =
      (windowIndices totalMs segMs).filterMap (fun i =>
        if extOk i then
          (processSegmentWithCorrectTiming tr tts segs (i * segMs)
            (min ((i + 1) * segMs) totalMs)).map (fun items => (i, items))
        else none) :=
    windowLoopGo_eq_filterMap tr tts extOk segs totalMs segMs
      (windowIndices totalMs segMs)
  refine ⟨hchar, ?_, ?_, ?_⟩
  · intro ws we h
    simp [processSegmentWithCorrectTiming, h]
  · rfl
  · intro i hfalse hmem
    rw [hchar] at hmem
    simp only [List.mem_map, List.mem_filterMap] at hmem
    obtain ⟨p, ⟨j, _, hFj⟩, hfst⟩ := hmem
    by_cases hj : extOk j = true
    · rw [if_pos hj] at hFj
      cases hpsc : processSegmentWithCorrectTiming tr tts segs (j * segMs)
          (min ((j + 1) * segMs) totalMs) with
      | none => rw [hpsc] at hFj; exact Option.noConfusion hFj
      | some items =>
        rw [hpsc, Option.map_some'] at hFj
        have hp1 : p.1 = j := by rw [← Option.some.inj hFj]
        have hij : i = j := by rw [← hfst, hp1]
        rw [hij] at hfalse
        rw [hj] at hfalse
        exact Bool.noConfusion hfalse
    · rw [if_neg hj] at hFj
      exact Option.noConfusion hFj

/-- Claim C6 witness: window 0, whose extraction fails, is absent from the
produced segment files of the concrete failed-window run. -/
theorem window_failures_drop_span_w :
    (0 : Nat) ∉ (windowLoop (fun _ => some "e") (fun _ => some 1000)
        (fun i => decide (0 < i)) [⟨500, 1500, "a"⟩, ⟨60000, 61000, "b"⟩]
        120000 60000).map Prod.fst :=
  (window_failures_drop_span (fun _ => some "e") (fun _ => some 1000)
    (fun i => decide (0 < i)) [⟨500, 1500, "a"⟩, ⟨60000, 61000, "b"⟩]
    120000 60000).2.2.2 0 rfl

theorem lengthMatchBed_eq_target (o t : Nat) : lengthMatchBed o t = t := by
  simp only [lengthMatchBed]
  split_ifs <;> omega

theorem windowPhaseEventsGo_all_window (tr : String → Option String)
    (tts : String → Option Nat) (extOk : Nat → Bool) (segs : List Utt)
    (totalMs segMs : Nat) (l : List Nat) :
    ∀ e ∈ windowPhaseEventsGo tr tts extOk segs totalMs segMs l,
      PipeEv.isWindowPhase e = true := by
  induction l with
  | nil => intro e he; simp [windowPhaseEventsGo] at he
  | cons x xs ih =>
    intro e he
    simp only [windowPhaseEventsGo, List.mem_append] at he
    rcases he with he | he
    · cases hext : extOk x with
      | false =>
        simp only [hext, Bool.false_eq_true, if_false, List.mem_singleton] at he
        subst he; rfl
      | true =>
        cases hpsc : processSegmentWithCorrectTiming tr tts segs (x * segMs)
            (min ((x + 1) * segMs) totalMs) with
        | none =>
          simp only [hext, if_true, hpsc, List.mem_singleton] at he
          subst he; rfl
        | some items =>
          simp only [hext, if_true, hpsc, List.mem_cons, List.mem_singleton,
            List.not_mem_nil, or_false] at he
          rcases he with he | he <;> (subst he; rfl)
    · exact ih e he

theorem isWindowPhase_not_mix (e : PipeEv) :
    e.isWindowPhase = true → e.isMix = false := by
  cases e <;> simp [PipeEv.isWindowPhase, PipeEv.isMix]

/-- Claim C7 (confirmed): in every long-video run that produces output, the
bed mix — length-matching the original track to the assembled track,
attenuating it by exactly -24 dB and overlaying the translated track — is
applied exactly once, globally, after the window phase and the concatenation
(and the optional prosody pass), and never inside any per-window processing
step: everything preceding the single mix event is a window-phase event,
`combineAll`, or `applyProsody`, none of which mixes. -/
theorem bed_mix_exactly_once_global (tr : String → Option String)
    (tts : String → Option Nat) (extOk : Nat → Bool) (hasProsody : Bool)
    (prosodyOut : Nat → Nat) (segs : List Utt)
    (totalMs segMs origLenMs : Nat) (evs : List PipeEv)
    (h : longVideoRun tr tts extOk hasProsody prosodyOut segs totalMs segMs
      origLenMs = some evs) :
    ∃ pre L,
      evs = pre ++ [PipeEv.bedMix (-24) L L, PipeEv.syncVideo] ∧
      lengthMatchBed origLenMs L = L ∧
      pre = windowPhaseEvents tr tts extOk segs totalMs segMs ++
        [PipeEv.combineAll] ++
        (if hasProsody then [PipeEv.applyProsody] else []) ∧
      (∀ e ∈ pre, PipeEv.isMix e = false) ∧
      (∀ e ∈ windowPhaseEvents tr tts extOk segs totalMs segMs,
        PipeEv.isWindowPhase e = true) ∧
      evs.countP PipeEv.isMix = 1 := by
  simp only [longVideoRun] at h
  by_cases hfiles : windowLoop tr tts extOk segs totalMs segMs = []
  · rw [if_pos hfiles] at h
    exact Option.noConfusion h
  · rw [if_neg hfiles] at h
    have hevs := (Option.some.inj h).symm
    set L := if hasProsody then
        prosodyOut (((windowLoop tr tts extOk segs totalMs segMs).map
          (fun p => itemsLen p.2)).sum)
      else ((windowLoop tr tts extOk segs totalMs segMs).map
        (fun p => itemsLen p.2)).sum with hL
    refine ⟨windowPhaseEvents tr tts extOk segs totalMs segMs ++
      [PipeEv.combineAll] ++
      (if hasProsody then [PipeEv.applyProsody] else []), L, ?_, ?_, rfl, ?_, ?_, ?_⟩
    · rw [hevs, lengthMatchBed_eq_target]
    · exact lengthMatchBed_eq_target origLenMs L
    · intro e he
      simp only [List.mem_append] at he
      rcases he with (he | he) | he
      · exact isWindowPhase_not_mix e
          (windowPhaseEventsGo_all_window tr tts extOk segs totalMs segMs _ e he)
      · simp only [List.mem_singleton] at he
        subst he; rfl
      · rcases hp : hasProsody with _ | _
        · rw [hp] at he; simp at he
        · rw [hp] at he
          simp only [if_true, List.mem_singleton] at he
          subst he; rfl
    · exact windowPhaseEventsGo_all_window tr tts extOk segs totalMs segMs _
    · rw [hevs]
      rw [List.countP_append, List.countP_append, List.countP_append]
      have h1 : (windowPhaseEvents tr tts extOk segs totalMs segMs).countP
          PipeEv.isMix = 0 := by
        rw [List.countP_eq_zero]
        intro e he
        have := isWindowPhase_not_mix e
          (windowPhaseEventsGo_all_window tr tts extOk segs totalMs segMs _ e he)
        simp [this]
      have h2 : (if hasProsody then [PipeEv.applyProsody] else []).countP
          PipeEv.isMix = 0 := by
        cases hasProsody <;> rfl
      rw [h1, h2]
      rfl

/-- Claim C7 witness: a concrete one-window run in which the single global
bed mix with gain -24 dB follows the window phase and the concatenation. -/
theorem bed_mix_exactly_once_global_w :
    ∃ pre L,
      [PipeEv.extractWindow 0 0 60000,
        PipeEv.processWindow 0 [Item.gap 1000, Item.clip 1000],
        PipeEv.combineAll, PipeEv.bedMix (-24) 2000 2000, PipeEv.syncVideo] =
          pre ++ [PipeEv.bedMix (-24) L L, PipeEv.syncVideo] ∧
      lengthMatchBed 5000 L = L ∧
      pre = windowPhaseEvents (fun _ => some "e") (fun _ => some 1000)
          (fun _ => true) [⟨1000, 2000, "a"⟩] 60000 60000 ++
        [PipeEv.combineAll] ++
        (if false then [PipeEv.applyProsody] else []) ∧
      (∀ e ∈ pre, PipeEv.isMix e = false) ∧
      (∀ e ∈ windowPhaseEvents (fun _ => some "e") (fun _ => some 1000)
          (fun _ => true) [⟨1000, 2000, "a"⟩] 60000 60000,
        PipeEv.isWindowPhase e = true) ∧
      List.countP PipeEv.isMix [PipeEv.extractWindow 0 0 60000,
        PipeEv.processWindow 0 [Item.gap 1000, Item.clip 1000],
        PipeEv.combineAll, PipeEv.bedMix (-24) 2000 2000,
        PipeEv.syncVideo] = 1 :=
  bed_mix_exactly_once_global (fun _ => some "e") (fun _ => some 1000)
    (fun _ => true) false id [⟨1000, 2000, "a"⟩] 60000 60000 5000
    [PipeEv.extractWindow 0 0 60000,
      PipeEv.processWindow 0 [Item.gap 1000, Item.clip 1000],
      PipeEv.combineAll, PipeEv.bedMix (-24) 2000 2000, PipeEv.syncVideo]
    (by decide)

/-- Claim C10 (confirmed): for every extraction request, the end time is
clamped to the source track's length before slicing; the call fails (writing
nothing) when the source file is missing or empty, when the start is at or
beyond the track's end, or when the clipped slice is empty; and a produced
segment is exactly the clamped slice `audio[start_ms:min(end_ms, len)]`,
which never extends past the end of the source audio. -/
theorem extract_audio_segment_safe (audio? : Option (List Int)) (s e : Nat) :
    (audio? = none → extractAudioSegment audio? s e = none) ∧
    (∀ a, audio? = some a → a.length = 0 →
      extractAudioSegment audio? s e = none) ∧
    (∀ a, audio? = some a → a.length ≤ s →
      extractAudioSegment audio? s e = none) ∧
    (∀ a seg, audio? = some a → extractAudioSegment audio? s e = some seg →
      seg = (a.take (min e a.length)).drop s ∧ seg ≠ [] ∧
      s + seg.length ≤ a.length) := by
  cases audio? with
  | none =>
    exact ⟨fun _ => rfl, fun a h => Option.noConfusion h,
      fun a h => Option.noConfusion h,
      fun a seg h => Option.noConfusion h⟩
  | some a =>
    refine ⟨fun h => Option.noConfusion h, ?_, ?_, ?_⟩
    · intro a0 ha0 hlen
      obtain rfl : a = a0 := Option.some.inj ha0
      simp only [extractAudioSegment]
      rw [if_pos hlen]
    · intro a0 ha0 hle
      obtain rfl : a = a0 := Option.some.inj ha0
      simp only [extractAudioSegment]
      by_cases h0 : a.length = 0
      · rw [if_pos h0]
      · rw [if_neg h0, if_pos hle]
    · intro a0 seg ha0 hseg
      obtain rfl : a = a0 := Option.some.inj ha0
      simp only [extractAudioSegment] at hseg
      by_cases h0 : a.length = 0
      · rw [if_pos h0] at hseg; exact Option.noConfusion hseg
      · rw [if_neg h0] at hseg
        by_cases hle : a.length ≤ s
        · rw [if_pos hle] at hseg; exact Option.noConfusion hseg
        · rw [if_neg hle] at hseg
          by_cases hempty : ((a.take (min e a.length)).drop s).length = 0
          · rw [if_pos hempty] at hseg; exact Option.noConfusion hseg
          · rw [if_neg hempty] at hseg
            obtain rfl : seg = (a.take (min e a.length)).drop s :=
              (Option.some.inj hseg).symm
            refine ⟨rfl, ?_, ?_⟩
            · intro hnil
              rw [hnil] at hempty
              exact hempty rfl
            · have h1 : ((a.take (min e a.length)).drop s).length =
                  min e a.length - s := by
                rw [List.length_drop, List.length_take]
                omega
              omega

/-- Claim C10 witness: extracting [1 ms, 10 ms) from a 4-sample track clamps
the end to the track length and yields the in-bounds slice. -/
theorem extract_audio_segment_safe_w :
    ((some [1, 2, 3, 4] : Option (List Int)) = none →
      extractAudioSegment (some [1, 2, 3, 4]) 1 10 = none) ∧
    (∀ a : List Int, (some [1, 2, 3, 4] : Option (List Int)) = some a → a.length = 0 →
      extractAudioSegment (some [1, 2, 3, 4]) 1 10 = none) ∧
    (∀ a : List Int, (some [1, 2, 3, 4] : Option (List Int)) = some a → a.length ≤ 1 →
      extractAudioSegment (some [1, 2, 3, 4]) 1 10 = none) ∧
    (∀ (a seg : List Int), (some [1, 2, 3, 4] : Option (List Int)) = some a →
      extractAudioSegment (some [1, 2, 3, 4]) 1 10 = some seg →
      seg = (a.take (min 10 a.length)).drop 1 ∧ seg ≠ [] ∧
      1 + seg.length ≤ a.length) :=
  extract_audio_segment_safe (some [1, 2, 3, 4]) 1 10
